import Mathlib

/-!
Verification development for the FinBot expense-tracking worker backend.

The embedding models:
* the per-user durable state container (`UserAgent`): expense list,
  conversation history, spending-context projection, request handlers;
* the chat expense extractor (three ordered regex patterns over the message);
* the expense categorizer and the spending-insights analyzer.

JavaScript numbers are modelled as `ℚ`; the hosted model and `JSON.parse`
are external collaborators, modelled as oracle values and oracle functions.
-/

/-! ### Character classes and string helpers (ECMAScript semantics) -/

/-- Whitespace as matched by the regex class `\s` and by `trim` (ASCII part). -/
def wsC (c : Char) : Bool := c == ' ' || c == '\t' || c == '\n' || c == '\r'

/-- Digit class `\d`. -/
def digitC (c : Char) : Bool := 48 ≤ c.toNat && c.toNat ≤ 57

/-- The regex metacharacter `.` (any character except line terminators). -/
def dotC (c : Char) : Bool := !(c == '\n' || c == '\r')

/-- Trailing-punctuation class `[.,!?;]` used by the merchant cleanup. -/
def punctC (c : Char) : Bool := c == '.' || c == ',' || c == '!' || c == '?' || c == ';'

/-- String.prototype.trim on a character list. -/
def jsTrimL (cs : List Char) : List Char :=
  ((cs.dropWhile wsC).reverse.dropWhile wsC).reverse

/-- String.prototype.trim. -/
def jsTrim (s : String) : String := String.mk (jsTrimL s.data)

/-- Numeric value of a digit list. -/
def digitsVal (cs : List Char) : Nat := cs.foldl (fun n c => n * 10 + (c.toNat - 48)) 0

/-- parseFloat on the strings captured by the amount group `\d+(\.\d{2})?`. -/
def parseAmount (cs : List Char) : ℚ :=
  let ip := cs.takeWhile digitC
  let rest := cs.drop ip.length
  match rest with
  | '.' :: fs =>
      let fp := fs.takeWhile digitC
      (digitsVal ip : ℚ) + (digitsVal fp : ℚ) / ((10 : ℚ) ^ fp.length)
  | _ => (digitsVal ip : ℚ)

/-! ### A small backtracking regex engine

Enough of ECMAScript regex semantics for the three chat-extraction patterns:
ordered alternation, greedy and lazy quantifiers over character classes,
optional groups, case-insensitive literals, numbered capture groups.
`mtch` returns every way to match a prefix of the input, in backtracking
preference order; the overall leftmost-first match is the head at the first
input position where the list is nonempty. -/

/-- Case-insensitive literal comparison of a pattern against an input prefix. -/
def ciStarts : List Char → List Char → Bool
  | [], _ => true
  | _ :: _, [] => false
  | c :: cs, d :: ds => (c.toLower == d.toLower) && ciStarts cs ds

/-- Regex abstract syntax (the fragment used by the extractor patterns). -/
inductive Re where
  | eps : Re
  | fail : Re
  | lit : List Char → Re
  | cls : (Char → Bool) → Re
  | seq2 : Re → Re → Re
  | alt2 : Re → Re → Re
  | opt : Re → Re
  | starG : (Char → Bool) → Re
  | plusG : (Char → Bool) → Re
  | plusL : (Char → Bool) → Re
  | grp : Nat → Re → Re

/-- Captured groups: list of (group index, captured characters). -/
abbrev Caps := List (Nat × List Char)

/-- All matches of `r` against a prefix of `s`, each as (remaining input,
captures), in backtracking preference order. -/
def mtch : Re → List Char → List (List Char × Caps)
  | .eps, s => [(s, [])]
  | .fail, _ => []
  | .lit cs, s => if ciStarts cs s then [(s.drop cs.length, [])] else []
  | .cls p, s =>
      match s with
      | [] => []
      | c :: cs => if p c then [(cs, [])] else []
  | .seq2 r1 r2, s =>
      (mtch r1 s).flatMap (fun pr =>
        (mtch r2 pr.1).map (fun pr2 => (pr2.1, pr.2 ++ pr2.2)))
  | .alt2 r1 r2, s => mtch r1 s ++ mtch r2 s
  | .opt r, s => mtch r s ++ [(s, [])]
  | .starG p, s =>
      (List.range ((s.takeWhile p).length + 1)).reverse.map (fun k => (s.drop k, []))
  | .plusG p, s =>
      (((List.range (s.takeWhile p).length).map (· + 1)).reverse).map (fun k => (s.drop k, []))
  | .plusL p, s =>
      ((List.range (s.takeWhile p).length).map (· + 1)).map (fun k => (s.drop k, []))
  | .grp i r, s =>
      (mtch r s).map (fun pr => (pr.1, (i, s.take (s.length - pr.1.length)) :: pr.2))

/-- Sequence a list of regexes. -/
def seqL (rs : List Re) : Re := rs.foldr Re.seq2 Re.eps

/-- Ordered alternation of a list of regexes. -/
def altL (rs : List Re) : Re := rs.foldr Re.alt2 Re.fail

/-- String.prototype.match without the global flag: captures of the first
match, trying start positions left to right. -/
def search (r : Re) : List Char → Option Caps
  | [] => ((mtch r []).head?).map Prod.snd
  | c :: cs =>
      match (mtch r (c :: cs)).head? with
      | some pr => some pr.2
      | none => search r cs

/-- Value of a numbered capture group. -/
def capGet (caps : Caps) (i : Nat) : List Char :=
  ((caps.find? (fun p => p.1 == i)).map Prod.snd).getD []

example : search (seqL [.lit ("ab").data, .grp 1 (.plusG digitC)]) ("xxab127y").data =
    some [(1, ("127").data)] := by decide

/-! ### The chat expense extractor -/

/-- The amount capture group `(\d+(?:\.\d{2})?)` with group index `i`. -/
def numGrp (i : Nat) : Re :=
  .grp i (.seq2 (.plusG digitC) (.opt (.seq2 (.lit ['.']) (.seq2 (.cls digitC) (.cls digitC)))))

/-- Pattern 1: `(?:spent|paid|bought|cost|costs)\s*\$?(\d+(?:\.\d{2})?)\s*(?:at|on|for)?\s*(.+)` with flag i. -/
def pattern1 : Re :=
  seqL [altL [.lit ("spent").data, .lit ("paid").data, .lit ("bought").data,
              .lit ("cost").data, .lit ("costs").data],
        .starG wsC, .opt (.lit ['$']), numGrp 1, .starG wsC,
        .opt (altL [.lit ("at").data, .lit ("on").data, .lit ("for").data]),
        .starG wsC, .grp 2 (.plusG dotC)]

/-- Pattern 2: `\$(\d+(?:\.\d{2})?)\s*(?:at|on|for)\s*(.+)` with flag i. -/
def pattern2 : Re :=
  seqL [.lit ['$'], numGrp 1, .starG wsC,
        altL [.lit ("at").data, .lit ("on").data, .lit ("for").data],
        .starG wsC, .grp 2 (.plusG dotC)]

/-- Pattern 3: `(?:bought|got)\s+(.+?)\s+for\s+\$?(\d+(?:\.\d{2})?)` with flag i. -/
def pattern3 : Re :=
  seqL [altL [.lit ("bought").data, .lit ("got").data],
        .plusG wsC, .grp 1 (.plusL dotC), .plusG wsC, .lit ("for").data,
        .plusG wsC, .opt (.lit ['$']), numGrp 2]

/-- Merchant cleanup step 1: `replace(/[.,!?;]+$/, '')`. -/
def stripTrailingPunct (cs : List Char) : List Char := (cs.reverse.dropWhile punctC).reverse

/-- Separator regex of the cleanup split: `\s+(today|yesterday|just now)` with flag i. -/
def temporalRe : Re :=
  .seq2 (.plusG wsC)
    (altL [.lit ("today").data, .lit ("yesterday").data, .lit ("just now").data])

/-- Cleanup step 2: `split(re)[0]` — the text before the leftmost separator
match, or the whole string when the separator never matches. -/
def beforeTemporal : List Char → List Char
  | [] => []
  | c :: cs =>
      if ((mtch temporalRe (c :: cs)).head?).isSome then []
      else c :: beforeTemporal cs

/-- Merchant cleanup: strip trailing punctuation, cut at the first temporal
qualifier, trim. -/
def cleanupMerchant (cs : List Char) : List Char :=
  jsTrimL (beforeTemporal (stripTrailingPunct cs))

/-- One iteration of the extraction loop: match a pattern, read the amount and
merchant groups (swapped for pattern 3), clean up, and accept only a positive
amount with a nonempty merchant. -/
def tryPattern (r : Re) (amountIdx merchantIdx : Nat) (msg : List Char) :
    Option (ℚ × List Char) :=
  match search r msg with
  | none => none
  | some caps =>
      let amount := parseAmount (capGet caps amountIdx)
      let merchant := cleanupMerchant (jsTrimL (capGet caps merchantIdx))
      if 0 < amount ∧ merchant ≠ [] then some (amount, merchant) else none

/-- The chat expense extractor: the three patterns tried in order, first
accepted match wins. -/
def detectExpense (msg : List Char) : Option (ℚ × List Char) :=
  (tryPattern pattern1 1 2 msg).orElse (fun _ =>
    (tryPattern pattern2 1 2 msg).orElse (fun _ =>
      tryPattern pattern3 2 1 msg))

example : detectExpense ("I spent $9 at Starbucks").data = some (9, ("Starbucks").data) := by
  decide

example : detectExpense ("bought coffee for $5").data = some (5, ("coffee").data) := by
  decide

/-! ### Data model (types.ts) -/

/-- Expense record. -/
structure Expense where
  id : String
  amount : ℚ
  merchant : String
  category : String
  date : String
  notes : Option String
deriving DecidableEq

/-- Message role: 'user' | 'assistant'. -/
inductive Role where
  | user : Role
  | assistant : Role
deriving DecidableEq

/-- Conversation message. -/
structure Message where
  role : Role
  content : String
  timestamp : String
deriving DecidableEq

/-- User preferences. -/
structure Preferences where
  currency : String
  categories : List String
deriving DecidableEq

/-- Per-user durable state. -/
structure UserState where
  userId : String
  expenses : List Expense
  conversations : List Message
  preferences : Preferences
deriving DecidableEq

/-- Spending-context projection returned by `getSpendingContext`. -/
structure SpendingContext where
  totalSpent : ℚ
  topCategory : String
  topAmount : ℚ
  recentExpenses : List Expense
  expenseCount : Nat
deriving DecidableEq

/-- The default state built by the `UserAgent` constructor. -/
def initialState (userId : String) : UserState :=
  ⟨userId, [], [], ⟨"USD", ["Food", "Transport", "Shopping", "Bills", "Other"]⟩⟩

/-! ### Expense categorizer (services/categorizer.ts) -/

/-- Outcome of the categorization model call: a reply string, or any failure
(a thrown `ai.run`, or a non-string reply on which `.trim()` throws). -/
inductive CatOutcome where
  | success : String → CatOutcome
  | failure : CatOutcome
deriving DecidableEq

/-- The fixed category set of the categorizer. -/
def validCategories : List String := ["Food", "Transport", "Shopping", "Bills", "Other"]

/-- categorizeExpense: validate the trimmed reply against the fixed set;
unrecognized replies degrade to Other at 0.5, failures to Other at 0.3,
a recognized reply is used at 0.95. -/
def categorizeExpense (o : CatOutcome) : String × ℚ :=
  match o with
  | .success reply =>
      let category := jsTrim reply
      if validCategories.contains category then (category, 95 / 100)
      else ("Other", 1 / 2)
  | .failure => ("Other", 3 / 10)

/-! ### Container operations (durable-objects/UserAgent.ts) -/

/-- Expense id generation: a timestamp and a random suffix. -/
def mkId (now : Nat) (rand : String) : String :=
  "exp_" ++ toString now ++ "_" ++ rand

/-- Input of `addExpense` (an Expense without its id). -/
structure ExpenseInput where
  amount : ℚ
  merchant : String
  category : String
  date : String
  notes : Option String
deriving DecidableEq

/-- addExpense: generate an id, append, return the stored expense. `now` and
`rand` stand for `Date.now()` and the random suffix. -/
def addExpense (st : UserState) (inp : ExpenseInput) (now : Nat) (rand : String) :
    Expense × UserState :=
  let newExpense : Expense :=
    ⟨mkId now rand, inp.amount, inp.merchant, inp.category, inp.date, inp.notes⟩
  (newExpense, { st with expenses := st.expenses ++ [newExpense] })

/-- addMessage: append a timestamped message, then truncate to the last 20
entries when the list exceeds 20 (`slice(-20)`). -/
def addMessage (st : UserState) (role : Role) (content timestamp : String) :
    Message × UserState :=
  let message : Message := ⟨role, content, timestamp⟩
  let conv := st.conversations ++ [message]
  let conv' := if conv.length > 20 then conv.drop (conv.length - 20) else conv
  (message, { st with conversations := conv' })

/-- Fold a sequence of `addMessage` calls over a state. -/
def addMessages (st : UserState) (ms : List Message) : UserState :=
  ms.foldl (fun s m => (addMessage s m.role m.content m.timestamp).2) st

/-- Optional filters of `getExpenses`. -/
structure Filters where
  startDate : Option String
  endDate : Option String
  category : Option String
deriving DecidableEq

/-- JavaScript truthiness of an optional string filter field (`filters?.f`):
present and nonempty. -/
def isGiven : Option String → Bool
  | none => false
  | some s => s ≠ ""

/-- The absent filter object (`getExpenses()`). -/
def noFilters : Filters := ⟨none, none, none⟩

/-- getExpenses: three successive filters, each applied only when its field is
truthy; date comparisons are string comparisons on the ISO dates. -/
def getExpenses (st : UserState) (f : Filters) : List Expense :=
  let filtered := st.expenses
  let filtered := if isGiven f.startDate then
      filtered.filter (fun e => decide (f.startDate.getD "" ≤ e.date)) else filtered
  let filtered := if isGiven f.endDate then
      filtered.filter (fun e => decide (e.date ≤ f.endDate.getD "")) else filtered
  let filtered := if isGiven f.category then
      filtered.filter (fun e => e.category == f.category.getD "") else filtered
  filtered

/-- One update of the `categoryTotals` record:
`totals[k] = (totals[k] || 0) + a`, preserving key insertion order. -/
def bump (m : List (String × ℚ)) (k : String) (a : ℚ) : List (String × ℚ) :=
  match m with
  | [] => [(k, a)]
  | (k', v) :: rest => if k' = k then (k', v + a) :: rest else (k', v) :: bump rest k a

/-- Per-category totals of an expense list, as `Object.entries` of the record
built by the forEach loop: keys in first-occurrence order. -/
def categoryTotals (es : List Expense) : List (String × ℚ) :=
  es.foldl (fun m e => bump m e.category e.amount) []

/-- The comparator `([, a], [, b]) => b - a`: descending by total. Array sort
is stable, modelled by a stable insertion sort under this total preorder. -/
def byTotalDesc (a b : String × ℚ) : Prop := b.2 ≤ a.2

instance : DecidableRel byTotalDesc := fun a b => inferInstanceAs (Decidable (b.2 ≤ a.2))

/-- An ECMAScript array-index property name: a canonical decimal string (no
leading zero except "0" itself) whose numeric value is below 2^32 - 1. Such
keys are enumerated before all other string keys. -/
def isArrayIndexName (s : String) : Bool :=
  match s.data with
  | [] => false
  | c :: cs =>
      (c :: cs).all digitC && (!(c == '0') || cs.isEmpty) &&
        decide (digitsVal (c :: cs) < 4294967295)

/-- Ascending numeric order on array-index entry keys. -/
def byIndexAsc (a b : String × ℚ) : Prop := digitsVal a.1.data ≤ digitsVal b.1.data

instance : DecidableRel byIndexAsc := fun a b =>
  inferInstanceAs (Decidable (digitsVal a.1.data ≤ digitsVal b.1.data))

/-- Object.entries enumeration order on a record: entries whose key is an
array-index name first, in ascending numeric order, then the remaining
entries in property creation order. -/
def jsEntries (m : List (String × ℚ)) : List (String × ℚ) :=
  List.insertionSort byIndexAsc (m.filter (fun p => isArrayIndexName p.1)) ++
    m.filter (fun p => !isArrayIndexName p.1)

/-- getSpendingContext: total spent, top category entry of the sorted
`Object.entries` of the per-category totals ('Unknown'/0 when there are no
expenses), last 5 expenses, and the expense count. A pure projection: the
handler performs no state write. -/
def getSpendingContext (st : UserState) : SpendingContext :=
  let expenses := st.expenses
  let total := expenses.foldl (fun sum e => sum + e.amount) 0
  let sorted := List.insertionSort byTotalDesc (jsEntries (categoryTotals expenses))
  let recent := expenses.drop (expenses.length - 5)
  match sorted.head? with
  | some top => ⟨total, top.1, top.2, recent, expenses.length⟩
  | none => ⟨total, "Unknown", 0, recent, expenses.length⟩

example :
    getSpendingContext { initialState ("u") with expenses :=
      [⟨"e1", 3, "a", "Food", "2024-01-01", none⟩,
       ⟨"e2", 4, "b", "Bills", "2024-01-02", none⟩,
       ⟨"e3", 1, "c", "Food", "2024-01-03", none⟩] } =
    ⟨8, "Food", 4, [⟨"e1", 3, "a", "Food", "2024-01-01", none⟩,
       ⟨"e2", 4, "b", "Bills", "2024-01-02", none⟩,
       ⟨"e3", 1, "c", "Food", "2024-01-03", none⟩], 3⟩ := by
  norm_num [getSpendingContext, initialState, categoryTotals, bump, jsEntries,
    isArrayIndexName, digitC, List.insertionSort, List.orderedInsert,
    byTotalDesc, byIndexAsc]

/-! ### Dates (ECMAScript `new Date(iso).getDay()` under UTC) -/

/-- Numeric value of a digit character. -/
def digitVal (c : Char) : Nat := c.toNat - 48

/-- Gregorian leap-year test. -/
def isLeapYear (y : Int) : Bool := (y % 4 == 0 && y % 100 != 0) || y % 400 == 0

/-- Number of days in a civil month. -/
def daysInMonth (y : Int) (m : Nat) : Nat :=
  if m = 2 then (if isLeapYear y then 29 else 28)
  else if m = 4 ∨ m = 6 ∨ m = 9 ∨ m = 11 then 30 else 31

/-- Parse a date-only ISO string `YYYY-MM-DD`; other strings, and
out-of-range month or day fields, give an invalid date. -/
def parseIsoDate (s : String) : Option (Int × Nat × Nat) :=
  match s.data with
  | [y1, y2, y3, y4, h1, m1, m2, h2, d1, d2] =>
      if h1 == '-' && h2 == '-' && ([y1, y2, y3, y4, m1, m2, d1, d2].all digitC) then
        let y : Int := Int.ofNat
          (digitVal y1 * 1000 + digitVal y2 * 100 + digitVal y3 * 10 + digitVal y4)
        let mo := digitVal m1 * 10 + digitVal m2
        let d := digitVal d1 * 10 + digitVal d2
        if 1 ≤ mo && mo ≤ 12 && 1 ≤ d && d ≤ daysInMonth y mo then some (y, mo, d)
        else none
      else none
  | _ => none

/-- Days since the Unix epoch of a civil date (Gregorian, proleptic). -/
def daysFromCivil (y : Int) (m d : Nat) : Int :=
  let y' : Int := if m ≤ 2 then y - 1 else y
  let era : Int := (if 0 ≤ y' then y' else y' - 399) / 400
  let yoe : Int := y' - era * 400
  let mp : Nat := (m + 9) % 12
  let doy : Int := (153 * (mp : Int) + 2) / 5 + (d : Int) - 1
  let doe : Int := yoe * 365 + yoe / 4 - yoe / 100 + doy
  era * 146097 + doe - 719468

/-- getDay of an ISO date string: 0 = Sunday … 6 = Saturday; `none` stands for
an invalid date (whose `getDay()` is NaN, failing every comparison). -/
def jsGetDay (s : String) : Option Nat :=
  (parseIsoDate s).map (fun ymd =>
    (((daysFromCivil ymd.1 ymd.2.1 ymd.2.2 + 4) % 7 + 7) % 7).toNat)

example : jsGetDay ("2024-01-15") = some 1 := by decide

example : jsGetDay ("2024-01-13") = some 6 := by decide

/-- The weekend test `day === 0 || day === 6` of `calculateTrends`. -/
def isWeekendDate (s : String) : Bool :=
  match jsGetDay s with
  | some day => day == 0 || day == 6
  | none => false

/-- The weekday test `day >= 1 && day <= 5` of `calculateTrends`. -/
def isWeekdayDate (s : String) : Bool :=
  match jsGetDay s with
  | some day => 1 ≤ day && day ≤ 5
  | none => false

/-! ### Insight analyzer (services/insights.ts) -/

/-- Weekend versus weekday totals. -/
structure WeekendVsWeekday where
  weekend : ℚ
  weekday : ℚ
deriving DecidableEq

/-- Trends computed by `calculateTrends`. -/
structure Trends where
  weekendVsWeekday : WeekendVsWeekday
  categoryDistribution : List (String × ℚ)
deriving DecidableEq

/-- A heuristic pattern observation. -/
structure SpendingPattern where
  type : String
  insight : String
  recommendation : String
deriving DecidableEq

/-- The insight report. -/
structure SpendingPersonality where
  personality : String
  description : String
  patterns : List SpendingPattern
  trends : Trends
deriving DecidableEq

/-- Replies of the two sequential model calls of the analyzer. -/
structure InsightOracle where
  personalityReply : String
  descriptionReply : String

/-- Sum of amounts via `reduce((sum, e) => sum + e.amount, 0)`. -/
def sumAmounts (es : List Expense) : ℚ := es.foldl (fun sum e => sum + e.amount) 0

/-- calculateTrends: weekend and weekday totals plus per-category totals. -/
def calculateTrends (es : List Expense) : Trends :=
  let weekendTotal := sumAmounts (es.filter (fun e => isWeekendDate e.date))
  let weekdayTotal := sumAmounts (es.filter (fun e => isWeekdayDate e.date))
  ⟨⟨weekendTotal, weekdayTotal⟩, categoryTotals es⟩

/-- Math.round: half-up, also for negative arguments. -/
def jsRound (q : ℚ) : Int := Int.floor (q + 1 / 2)

/-- generatePatterns: a day-of-week observation when weekend spending exceeds
weekday spending by more than 30 percent, and a category observation naming
the top category when one exists. -/
def generatePatterns (es : List Expense) (t : Trends) : List SpendingPattern :=
  let base : List SpendingPattern := []
  let withWeekend :=
    if t.weekendVsWeekday.weekday * (13 / 10) < t.weekendVsWeekday.weekend then
      let pct := jsRound (t.weekendVsWeekday.weekend /
        (t.weekendVsWeekday.weekend + t.weekendVsWeekday.weekday) * 100)
      base ++ [⟨"day_of_week",
        "You spend " ++ toString pct ++ "% of your money on weekends",
        "Consider setting a weekend spending cap to balance fun with savings"⟩]
    else base
  match (List.insertionSort byTotalDesc (jsEntries t.categoryDistribution)).head? with
  | none => withWeekend
  | some top =>
      let percentage := jsRound (top.2 / sumAmounts es * 100)
      withWeekend ++ [⟨"category",
        top.1 ++ " is " ++ toString percentage ++ "% of your spending",
        if 40 < percentage then
          "Try diversifying your spending or reducing " ++ top.1 ++ " expenses"
        else "Your " ++ top.1 ++ " spending looks balanced"⟩]

/-- The fixed placeholder report returned below 5 expenses. -/
def gettingStartedReport : SpendingPersonality :=
  ⟨"Getting Started", "Add more expenses to see your spending personality!", [], ⟨⟨0, 0⟩, []⟩⟩

/-- analyzeSpendingPatterns. The second component counts the hosted-model
calls performed (`0` on the early-return guard, `2` otherwise). The trimmed
personality reply is used verbatim, without validation against the label
list. -/
def analyzeSpendingPatterns (o : InsightOracle) (es : List Expense) :
    SpendingPersonality × Nat :=
  if es.length < 5 then (gettingStartedReport, 0)
  else
    let trends := calculateTrends es
    let personality := jsTrim o.personalityReply
    let description := jsTrim o.descriptionReply
    let patterns := generatePatterns es trends
    (⟨personality, description, patterns, trends⟩, 2)

/-- The five personality labels enumerated in the classification prompt. -/
def personalityLabels : List String :=
  ["Weekend Warrior", "Stress Spender", "Late Night Buyer", "Consistent Budgeter", "Impulse Shopper"]

/-- getInsights: delegate to the analyzer over the full expense list. -/
def getInsights (st : UserState) (o : InsightOracle) : SpendingPersonality × Nat :=
  analyzeSpendingPatterns o st.expenses

/-! ### parseAndAddExpense and its route handler -/

/-- A JSON.parse result, restricted to what the handler inspects: a falsy or
truthy non-object primitive, or an object carrying optional numeric `amount`
and string `merchant` fields. -/
inductive JVal where
  | jprim : Bool → JVal
  | jobj : Option ℚ → Option String → JVal
deriving DecidableEq

/-- Shape of the extraction model reply as discriminated by the handler:
a non-null object, a string, or anything else. -/
inductive ModelReply where
  | objReply : Option ℚ → Option String → ModelReply
  | strReply : String → ModelReply
  | otherReply : ModelReply
deriving DecidableEq

/-- External collaborators of `parseAndAddExpense`: the extraction reply,
`JSON.parse` (`none` = a thrown SyntaxError), and the categorization call. -/
structure ParseOracle where
  reply : ModelReply
  jsonParse : String → Option JVal
  cat : CatOutcome

/-- One global-replace pass of a literal pattern followed by an optional
newline (the fence patterns of the handler), scanning left to right. Fuel is
the input length, enough for every call. -/
def replaceFenceAux : Nat → List Char → List Char → List Char
  | 0, _, s => s
  | _ + 1, _, [] => []
  | fuel + 1, pat, c :: cs =>
      if pat ≠ [] ∧ pat.isPrefixOf (c :: cs) then
        match (c :: cs).drop pat.length with
        | '\n' :: rest => replaceFenceAux fuel pat rest
        | rest => replaceFenceAux fuel pat rest
      else c :: replaceFenceAux fuel pat cs

/-- Global replace of a fence pattern with the empty string. -/
def replaceFence (pat : List Char) (s : List Char) : List Char :=
  replaceFenceAux (s.length + 1) pat s

/-- The string cleanup of the handler: trim, strip ```json fences, strip
``` fences. -/
def cleanedOf (s : String) : String :=
  String.mk (replaceFence (("```").data) (replaceFence (("```json").data) (jsTrimL s.data)))

/-- Reply normalization: an object reply is used as is; a string reply is
cleaned and JSON-parsed; any other reply type throws (`none`). -/
def normalizeReply (o : ParseOracle) : Option JVal :=
  match o.reply with
  | .objReply a m => some (.jobj a m)
  | .strReply s => o.jsonParse (cleanedOf s)
  | .otherReply => none

/-- JavaScript truthiness of a parsed JSON value (`!parsed`); objects are
always truthy. -/
def jvalTruthy : JVal → Bool
  | .jprim t => t
  | .jobj _ _ => true

/-- The `.amount` field of a parsed value (missing on primitives). -/
def fieldAmount : JVal → Option ℚ
  | .jprim _ => none
  | .jobj a _ => a

/-- The `.merchant` field of a parsed value (missing on primitives). -/
def fieldMerchant : JVal → Option String
  | .jprim _ => none
  | .jobj _ m => m

/-- The required-field check `!parsed || !parsed.amount || !parsed.merchant`
(missing and falsy field values rejected). -/
def fieldsBad (v : JVal) : Prop :=
  jvalTruthy v = false ∨ fieldAmount v = none ∨ fieldAmount v = some 0 ∨
    fieldMerchant v = none ∨ fieldMerchant v = some ""

instance : DecidablePred fieldsBad := fun v => by
  unfold fieldsBad; infer_instance

/-- The claim-side failure condition: the reply is neither a usable object nor
parseable text after stripping code fences. -/
def replyUnusable (o : ParseOracle) : Prop :=
  o.reply = .otherReply ∨
    ∃ s, o.reply = .strReply s ∧ o.jsonParse (cleanedOf s) = none

/-- parseAndAddExpense: normalize the model reply, reject missing or falsy
required fields, categorize, then add the expense with an auto-generated
note. `today` stands for the current ISO date. -/
def parseAndAddExpense (st : UserState) (o : ParseOracle) (now : Nat)
    (rand today : String) : Except String (Expense × UserState) :=
  match normalizeReply o with
  | none => .error "Could not parse expense. Try format: \"Spent $45 at Chipotle\""
  | some parsed =>
      if fieldsBad parsed then .error "Could not understand that expense format."
      else
        match fieldAmount parsed, fieldMerchant parsed with
        | some amount, some merchant =>
            let cc := categorizeExpense o.cat
            let rounded := jsRound (cc.2 * 100)
            .ok (addExpense st
              ⟨amount, merchant, cc.1, today,
               some ("Auto-categorized as " ++ cc.1 ++ " (" ++ toString rounded ++ "% confidence)")⟩
              now rand)
        | _, _ => .error "Could not understand that expense format."

/-- Result of the `/expenses/parse` route: HTTP status, `success` flag, state
after the request. -/
structure ParseRouteResult where
  status : Nat
  success : Bool
  state : UserState
deriving DecidableEq

/-- The POST `/expenses/parse` handler: 200 + success on a stored expense,
400 + failure with the original state on a parse error. -/
def handleParseRoute (st : UserState) (o : ParseOracle) (now : Nat)
    (rand today : String) : ParseRouteResult :=
  match parseAndAddExpense st o now rand today with
  | .ok r => ⟨200, true, r.2⟩
  | .error _ => ⟨400, false, st⟩

/-! ### The direct add endpoint (POST `/expenses`) -/

/-- Request body of the direct add endpoint; `category` and `notes` may be
absent (or empty, which the handler treats alike by truthiness). -/
structure AddBody where
  amount : ℚ
  merchant : String
  category : Option String
  date : String
  notes : Option String
deriving DecidableEq

/-- The POST `/expenses` handler: categorize only when the body carries no
truthy category, set a note when absent, then `addExpense(body)`. -/
def handleAddExpense (st : UserState) (body : AddBody) (cat : CatOutcome)
    (now : Nat) (rand : String) : Expense × UserState :=
  let body' :=
    if isGiven body.category then body
    else
      let cc := categorizeExpense cat
      let rounded := jsRound (cc.2 * 100)
      let notes' := if isGiven body.notes then body.notes
        else some ("Auto-categorized as " ++ cc.1 ++ " (" ++ toString rounded ++ "% confidence)")
      { body with category := some cc.1, notes := notes' }
  addExpense st
    ⟨body'.amount, body'.merchant, body'.category.getD "", body'.date, body'.notes⟩
    now rand

/-! ### Specification-side definitions -/

/-- Total amount spent in a category (specification form). -/
def catTotal (es : List Expense) (c : String) : ℚ :=
  ((es.filter (fun e => e.category = c)).map (fun e => e.amount)).sum

/-- A category occurs in the expense list. -/
def occursCat (es : List Expense) (c : String) : Prop := ∃ e ∈ es, e.category = c

/-- Index of the first expense of a category. -/
def firstCatIdx (es : List Expense) (c : String) : Nat :=
  es.findIdx (fun e => e.category = c)

/-- Keys of an association list. -/
def keysOf (m : List (String × ℚ)) : List String := m.map Prod.fst

/-- First value stored under a key. -/
def valGet : List (String × ℚ) → String → Option ℚ
  | [], _ => none
  | (k, v) :: m, k' => if k = k' then some v else valGet m k'

/-- `p` is the first entry of `l` attaining the maximal second component:
every strictly earlier entry is strictly smaller, every later entry is no
larger. -/
def IsFirstMax (l : List (String × ℚ)) (p : String × ℚ) : Prop :=
  ∃ l1 l2, l = l1 ++ p :: l2 ∧ (∀ q ∈ l1, q.2 < p.2) ∧ ∀ q ∈ l2, q.2 ≤ p.2

/-- The truncation performed after each message append, in closed form. -/
def keepRecent (l : List Message) : List Message :=
  if l.length > 20 then l.drop (l.length - 20) else l

/-- Conjunction of the truthy `getExpenses` filters as a single predicate. -/
def matchesFilters (f : Filters) (e : Expense) : Bool :=
  (!isGiven f.startDate || decide (f.startDate.getD "" ≤ e.date)) &&
  (!isGiven f.endDate || decide (e.date ≤ f.endDate.getD "")) &&
  (!isGiven f.category || e.category == f.category.getD "")

instance (es : List Expense) (c : String) : Decidable (occursCat es c) := by
  unfold occursCat; infer_instance

/-- A concrete message used by witnesses. -/
def msg0 : Message := ⟨.user, "hi", "t0"⟩

/-- Two expenses with equal totals whose categories are "Food" and the
array-index-like name "5" (storable via the direct add endpoint, which keeps
a truthy body category verbatim). -/
def tieExpenses : List Expense :=
  [⟨"e1", 10, "a", "Food", "2024-01-01", none⟩,
   ⟨"e2", 10, "b", "5", "2024-01-02", none⟩]

/-- A state holding `tieExpenses`. -/
def tieState : UserState := { initialState ("u") with expenses := tieExpenses }

/-- A concrete five-expense list used by witnesses and counterexamples. -/
def fiveExpenses : List Expense :=
  [⟨"e1", 10, "m1", "Food", "2024-01-15", none⟩,
   ⟨"e2", 20, "m2", "Food", "2024-01-16", none⟩,
   ⟨"e3", 30, "m3", "Bills", "2024-01-17", none⟩,
   ⟨"e4", 40, "m4", "Shopping", "2024-01-18", none⟩,
   ⟨"e5", 50, "m5", "Other", "2024-01-19", none⟩]

/-! ## Theorems -/

/-- Helper: the categorizer's category component always lies in the fixed
set, whatever the model did. -/
theorem categorize_fst_mem (o : CatOutcome) :
    (categorizeExpense o).1 ∈ validCategories := by
  cases o with
  | success s =>
      cases hc : validCategories.contains (jsTrim s) with
      | false =>
          have e2 : categorizeExpense (.success s) = ("Other", 1 / 2) := by
            simp only [categorizeExpense, hc]
            rfl
          rw [e2]
          simp [validCategories]
      | true =>
          have e1 : categorizeExpense (.success s) = (jsTrim s, 95 / 100) := by
            simp only [categorizeExpense, hc]
            rfl
          rw [e1]
          exact List.mem_of_elem_eq_true hc
  | failure => simp [categorizeExpense, validCategories]

/-- C2: the chat expense extractor maps "I spent $9 at Starbucks" to amount 9
and merchant "Starbucks", and "bought coffee for $5" to amount 5 and merchant
"coffee", applying its three patterns in order with first match winning. -/
theorem chat_extractor_examples :
    detectExpense (("I spent $9 at Starbucks").data) = some (9, ("Starbucks").data) ∧
    detectExpense (("bought coffee for $5").data) = some (5, ("coffee").data) := by
  constructor <;> decide

/-- C6: categorizeExpense never raises (it is total) and returns exactly one
of three outcomes — the trimmed recognized reply at confidence 0.95, Other at
0.5 on an unrecognized reply, Other at 0.3 on a call failure — so its
category always lies in the fixed set. -/
theorem categorize_trichotomy (o : CatOutcome) :
    ((∃ s, o = .success s ∧ jsTrim s ∈ validCategories ∧
        categorizeExpense o = (jsTrim s, 95 / 100)) ∨
     (∃ s, o = .success s ∧ jsTrim s ∉ validCategories ∧
        categorizeExpense o = ("Other", 1 / 2)) ∨
     (o = .failure ∧ categorizeExpense o = ("Other", 3 / 10))) ∧
    (categorizeExpense o).1 ∈ validCategories := by
  cases o with
  | success s =>
      by_cases h : jsTrim s ∈ validCategories
      · have eq1 : categorizeExpense (.success s) = (jsTrim s, 95 / 100) := by
          simp [categorizeExpense, h]
        exact ⟨Or.inl ⟨s, rfl, h, eq1⟩, by rw [eq1]; exact h⟩
      · have eq2 : categorizeExpense (.success s) = ("Other", 1 / 2) := by
          simp [categorizeExpense, h]
        exact ⟨Or.inr (Or.inl ⟨s, rfl, h, eq2⟩), by rw [eq2]; simp [validCategories]⟩
  | failure =>
      exact ⟨Or.inr (Or.inr ⟨rfl, rfl⟩), by simp [categorizeExpense, validCategories]⟩

/-- C7: with fewer than 5 expenses the analyzer returns the fixed
"Getting Started" report — empty patterns, zero weekend and weekday totals,
empty category distribution — and performs no hosted-model call, regardless
of the expense contents and of the model behavior. -/
theorem insights_guard_spec (o : InsightOracle) (es : List Expense)
    (h : es.length < 5) :
    (analyzeSpendingPatterns o es).1.personality = "Getting Started" ∧
    (analyzeSpendingPatterns o es).1.patterns = [] ∧
    (analyzeSpendingPatterns o es).1.trends.weekendVsWeekday.weekend = 0 ∧
    (analyzeSpendingPatterns o es).1.trends.weekendVsWeekday.weekday = 0 ∧
    (analyzeSpendingPatterns o es).1.trends.categoryDistribution = [] ∧
    (analyzeSpendingPatterns o es).2 = 0 := by
  simp [analyzeSpendingPatterns, h, gettingStartedReport]

/-- C7 witness: the guard instantiated on a concrete nonempty list. -/
theorem insights_guard_witness :
    [(⟨"e1", 500, "Casino", "WeirdCategory", "not a date", none⟩ : Expense)].length < 5 ∧
    (analyzeSpendingPatterns ⟨"Weekend Warrior", "d"⟩
        [⟨"e1", 500, "Casino", "WeirdCategory", "not a date", none⟩]).1.personality =
      "Getting Started" := by
  exact ⟨by decide, (insights_guard_spec ⟨"Weekend Warrior", "d"⟩ _ (by decide)).1⟩

/-- C10: on a state with no expenses, getSpendingContext returns topCategory
"Unknown", topAmount 0, totalSpent 0, expenseCount 0 and no recent
expenses. -/
theorem empty_context_spec (st : UserState) (h : st.expenses = []) :
    getSpendingContext st = ⟨0, "Unknown", 0, [], 0⟩ := by
  simp [getSpendingContext, h, categoryTotals, jsEntries]

/-- C10 witness: the empty-list case instantiated on the initial state. -/
theorem empty_context_witness :
    (initialState ("u")).expenses = [] ∧
    getSpendingContext (initialState ("u")) = ⟨0, "Unknown", 0, [], 0⟩ :=
  ⟨rfl, empty_context_spec (initialState ("u")) rfl⟩

/-- C1 counterexample: a request body that already carries the category
"Groceries" is persisted verbatim through the direct add endpoint, so the
stored category is outside the five fixed names. -/
theorem direct_add_counterexample :
    (handleAddExpense (initialState ("u"))
        ⟨25, "Whole Foods", some ("Groceries"), "2024-01-15", none⟩
        .failure 0 ("abc")).1.category ∉ validCategories ∧
    (handleAddExpense (initialState ("u"))
        ⟨25, "Whole Foods", some ("Groceries"), "2024-01-15", none⟩
        .failure 0 ("abc")).2.expenses =
      [(handleAddExpense (initialState ("u"))
        ⟨25, "Whole Foods", some ("Groceries"), "2024-01-15", none⟩
        .failure 0 ("abc")).1] := by
  constructor <;> decide

/-- C1 (amended): for every expense persisted through the direct add endpoint
whose request body carries no truthy category field, the stored expense's
category is one of the five fixed names; a truthy body category is stored
verbatim without validation. -/
theorem direct_add_category_spec (st : UserState) (body : AddBody)
    (cat : CatOutcome) (now : Nat) (rand : String)
    (h : isGiven body.category = false) :
    (handleAddExpense st body cat now rand).1.category ∈ validCategories ∧
    (handleAddExpense st body cat now rand).2.expenses =
      st.expenses ++ [(handleAddExpense st body cat now rand).1] := by
  unfold handleAddExpense addExpense
  simp [h]
  exact categorize_fst_mem cat

/-- C1 witness: the amended statement instantiated on a body without a
category field. -/
theorem direct_add_witness :
    isGiven (none : Option String) = false ∧
    (handleAddExpense (initialState ("u"))
        ⟨12, "Cafe", none, "2024-01-15", none⟩ (.success ("Food")) 3 ("r")).1.category ∈
      validCategories :=
  ⟨rfl, (direct_add_category_spec (initialState ("u"))
      ⟨12, "Cafe", none, "2024-01-15", none⟩ (.success ("Food")) 3 ("r") rfl).1⟩

/-- C8 counterexample: with five expenses and the model reply "Banana", the
insight report's personality is "Banana", which is not one of the five fixed
labels — the analyzer does not validate the reply. -/
theorem personality_counterexample :
    (analyzeSpendingPatterns ⟨"Banana", "d"⟩ fiveExpenses).1.personality = "Banana" ∧
    (analyzeSpendingPatterns ⟨"Banana", "d"⟩ fiveExpenses).1.personality ∉
      personalityLabels := by
  constructor <;> decide

/-- C8 (amended): with at least 5 expenses the personality field equals the
model's trimmed reply verbatim (the prompt asks for one of the five labels,
but the code does not enforce it), so it lies in the label set exactly when
the trimmed reply does. -/
theorem personality_equals_reply (o : InsightOracle) (es : List Expense)
    (h : ¬ es.length < 5) :
    (analyzeSpendingPatterns o es).1.personality = jsTrim o.personalityReply ∧
    ((analyzeSpendingPatterns o es).1.personality ∈ personalityLabels ↔
      jsTrim o.personalityReply ∈ personalityLabels) := by
  simp [analyzeSpendingPatterns, h]

/-- C8 witness: the amended statement instantiated on five expenses and a
compliant reply. -/
theorem personality_equals_reply_witness :
    ¬ fiveExpenses.length < 5 ∧
    ((analyzeSpendingPatterns ⟨"Weekend Warrior", "d"⟩ fiveExpenses).1.personality =
        jsTrim ("Weekend Warrior") ∧
      ((analyzeSpendingPatterns ⟨"Weekend Warrior", "d"⟩ fiveExpenses).1.personality ∈
          personalityLabels ↔ jsTrim ("Weekend Warrior") ∈ personalityLabels)) :=
  ⟨by decide, personality_equals_reply ⟨"Weekend Warrior", "d"⟩ fiveExpenses (by decide)⟩

/-- Helper: the post-append state of `addMessage` in terms of `keepRecent`. -/
theorem addMessage_conversations (st : UserState) (m : Message) :
    (addMessage st m.role m.content m.timestamp).2.conversations =
      keepRecent (st.conversations ++ [m]) := rfl

/-- Helper: `keepRecent` in closed form as a suffix. -/
theorem keepRecent_eq_drop (l : List Message) :
    keepRecent l = l.drop (l.length - 20) := by
  unfold keepRecent
  split
  · rfl
  · next h =>
      have h0 : l.length - 20 = 0 := by omega
      simp [h0]

/-- Helper: truncating, appending one message and truncating again agrees
with truncating the whole appended list. -/
theorem keepRecent_keepRecent (l : List Message) (m : Message) :
    keepRecent (keepRecent l ++ [m]) = keepRecent (l ++ [m]) := by
  by_cases h : l.length > 20
  · have hk : keepRecent l = l.drop (l.length - 20) := keepRecent_eq_drop l
    rw [hk, keepRecent_eq_drop, keepRecent_eq_drop]
    have hlen : (l.drop (l.length - 20)).length = 20 := by
      rw [List.length_drop]; omega
    have h1 : (l.drop (l.length - 20) ++ [m]).length - 20 = 1 := by
      rw [List.length_append, hlen, List.length_singleton]
    have h2 : (l ++ [m]).length - 20 = l.length - 19 := by
      rw [List.length_append, List.length_singleton]; omega
    rw [h1, h2]
    rw [List.drop_append_of_le_length (by omega), List.drop_drop,
        List.drop_append_of_le_length (by omega)]
    congr 2
    omega
  · have hk : keepRecent l = l := by unfold keepRecent; simp [h]
    rw [hk]

/-- Helper: the conversation list after a nonempty sequence of appends is the
truncation of the original list extended by all appended messages. -/
theorem addMessages_conversations (st : UserState) (ms : List Message)
    (h : ms ≠ []) :
    (addMessages st ms).conversations = keepRecent (st.conversations ++ ms) := by
  induction ms using List.reverseRecOn with
  | nil => exact absurd rfl h
  | append_singleton l a ih =>
      have hstep : addMessages st (l ++ [a]) =
          (addMessage (addMessages st l) a.role a.content a.timestamp).2 := by
        simp [addMessages, List.foldl_append]
      rcases eq_or_ne l [] with hl | hl
      · subst hl
        simp only [List.nil_append] at hstep ⊢
        rw [hstep, addMessage_conversations]
        simp [addMessages]
      · rw [hstep, addMessage_conversations, ih hl, keepRecent_keepRecent,
            List.append_assoc]

/-- C3: after any nonempty sequence of `addMessage` appends the conversation
list has at most 20 entries, and it is exactly the suffix of most recently
appended messages (original state followed by the appended messages, in
order). Since every prefix of the sequence is itself such a sequence, the
bound holds after every append. -/
theorem conversation_bound_spec (st : UserState) (ms : List Message)
    (h : ms ≠ []) :
    (addMessages st ms).conversations.length ≤ 20 ∧
    (addMessages st ms).conversations =
      (st.conversations ++ ms).drop ((st.conversations ++ ms).length - 20) := by
  have he : (addMessages st ms).conversations =
      (st.conversations ++ ms).drop ((st.conversations ++ ms).length - 20) := by
    rw [addMessages_conversations st ms h, keepRecent_eq_drop]
  refine ⟨?_, he⟩
  rw [he, List.length_drop]
  omega

/-- C3 witness: the bound and suffix equation instantiated on a fresh state
and a single appended message. -/
theorem conversation_bound_witness :
    ([msg0] ≠ []) ∧
    ((addMessages (initialState ("u")) [msg0]).conversations.length ≤ 20 ∧
      (addMessages (initialState ("u")) [msg0]).conversations =
        ((initialState ("u")).conversations ++ [msg0]).drop
          (((initialState ("u")).conversations ++ [msg0]).length - 20)) :=
  ⟨by decide, conversation_bound_spec (initialState ("u")) [msg0] (by decide)⟩

/-- Helper: reply normalization fails exactly on an unusable reply. -/
theorem normalizeReply_eq_none_iff (o : ParseOracle) :
    normalizeReply o = none ↔ replyUnusable o := by
  cases hr : o.reply with
  | objReply a m => simp [normalizeReply, replyUnusable, hr]
  | strReply s => simp [normalizeReply, replyUnusable, hr]
  | otherReply => simp [normalizeReply, replyUnusable, hr]

/-- Helper: a value passing the required-field check has a nonzero amount and
a nonempty merchant. -/
theorem fields_good_shape (v : JVal) (hb : ¬ fieldsBad v) :
    ∃ a m, fieldAmount v = some a ∧ fieldMerchant v = some m := by
  cases v with
  | jprim t => exact absurd (Or.inr (Or.inl rfl)) hb
  | jobj a? m? =>
      cases a? with
      | none => exact absurd (Or.inr (Or.inl rfl)) hb
      | some a =>
          cases m? with
          | none => exact absurd (Or.inr (Or.inr (Or.inr (Or.inl rfl)))) hb
          | some m => exact ⟨a, m, rfl, rfl⟩

/-- C5: parseAndAddExpense raises — surfaced by the route as 400 with
success false — exactly when the model reply is neither a usable object nor
parseable text after fence stripping, or the parsed amount or merchant field
is missing or falsy; on failure the stored expense list is unchanged, and on
success exactly the new expense is appended. -/
theorem parse_route_spec (st : UserState) (o : ParseOracle) (now : Nat)
    (rand today : String) :
    (((handleParseRoute st o now rand today).status = 400 ∧
      (handleParseRoute st o now rand today).success = false ∧
      (handleParseRoute st o now rand today).state = st) ∨
     ((handleParseRoute st o now rand today).status = 200 ∧
      (handleParseRoute st o now rand today).success = true ∧
      ∃ e, (handleParseRoute st o now rand today).state.expenses =
        st.expenses ++ [e])) ∧
    ((handleParseRoute st o now rand today).status = 400 ↔
      replyUnusable o ∨ ∃ v, normalizeReply o = some v ∧ fieldsBad v) := by
  cases hn : normalizeReply o with
  | none =>
      have hroute : handleParseRoute st o now rand today = ⟨400, false, st⟩ := by
        simp [handleParseRoute, parseAndAddExpense, hn]
      rw [hroute]
      exact ⟨Or.inl ⟨rfl, rfl, rfl⟩,
        ⟨fun _ => Or.inl ((normalizeReply_eq_none_iff o).mp hn), fun _ => rfl⟩⟩
  | some v =>
      by_cases hb : fieldsBad v
      · have hroute : handleParseRoute st o now rand today = ⟨400, false, st⟩ := by
          simp [handleParseRoute, parseAndAddExpense, hn, hb]
        rw [hroute]
        exact ⟨Or.inl ⟨rfl, rfl, rfl⟩,
          ⟨fun _ => Or.inr ⟨v, rfl, hb⟩, fun _ => rfl⟩⟩
      · obtain ⟨a, m, ha, hm⟩ := fields_good_shape v hb
        have hroute : handleParseRoute st o now rand today =
            ⟨200, true, (addExpense st
              ⟨a, m, (categorizeExpense o.cat).1, today,
               some ("Auto-categorized as " ++ (categorizeExpense o.cat).1 ++ " (" ++
                 toString (jsRound ((categorizeExpense o.cat).2 * 100)) ++
                 "% confidence)")⟩ now rand).2⟩ := by
          simp [handleParseRoute, parseAndAddExpense, hn, hb, ha, hm]
        have hcontra :
            ¬ (replyUnusable o ∨ ∃ v', (some v : Option JVal) = some v' ∧ fieldsBad v') := by
          rintro (hun | ⟨v', hv', hb'⟩)
          · rw [(normalizeReply_eq_none_iff o).mpr hun] at hn
            exact Option.noConfusion hn
          · cases Option.some.inj hv'
            exact hb hb'
        rw [hroute]
        constructor
        · refine Or.inr ⟨rfl, rfl, ?_⟩
          simp only [addExpense]
          exact ⟨_, rfl⟩
        · refine ⟨fun h => ?_, fun hrhs => absurd hrhs hcontra⟩
          simp at h

/-- C9: getExpenses returns exactly the stored expenses passing the inclusive
date range and the category equality for the filters that are given,
preserving insertion order; no filters returns the full list; a given
category matching nothing returns the empty list, not an error; and right
after addExpense the last element of an unfiltered listing is the just-added
expense with all its fields. -/
theorem get_expenses_spec (st : UserState) (f : Filters) (inp : ExpenseInput)
    (now : Nat) (rand : String) (c : String) (hc : c ≠ "")
    (hnone : ∀ e ∈ st.expenses, e.category ≠ c) :
    getExpenses st f = st.expenses.filter (matchesFilters f) ∧
    getExpenses st noFilters = st.expenses ∧
    getExpenses st ⟨none, none, some c⟩ = [] ∧
    (getExpenses (addExpense st inp now rand).2 noFilters).getLast? =
      some (addExpense st inp now rand).1 := by
  refine ⟨?_, ?_, ?_, ?_⟩
  · unfold getExpenses matchesFilters
    cases h1 : isGiven f.startDate <;> cases h2 : isGiven f.endDate <;>
      cases h3 : isGiven f.category <;>
        simp [h1, h2, h3, List.filter_filter, Bool.and_comm, Bool.and_assoc,
          Bool.and_left_comm]
  · simp [getExpenses, noFilters, isGiven]
  · have hfe : getExpenses st ⟨none, none, some c⟩ =
        st.expenses.filter (fun e => e.category == c) := by
      simp [getExpenses, isGiven, hc]
    rw [hfe, List.filter_eq_nil_iff]
    intro e he
    simpa using hnone e he
  · simp [addExpense, getExpenses, noFilters, isGiven, List.getLast?_concat]

/-- Helper: a left fold of additions over the amounts. -/
theorem foldl_add_amounts (es : List Expense) (a : ℚ) :
    es.foldl (fun s e => s + e.amount) a = a + (es.map (fun e => e.amount)).sum := by
  induction es generalizing a with
  | nil => simp
  | cons e es ih => simp [ih, add_assoc]

/-- Helper: `bump` keeps the key order and appends an unseen key at the
end. -/
theorem keysOf_bump (m : List (String × ℚ)) (k : String) (a : ℚ) :
    keysOf (bump m k a) =
      if k ∈ keysOf m then keysOf m else keysOf m ++ [k] := by
  induction m with
  | nil => simp [bump, keysOf]
  | cons p m ih =>
      obtain ⟨k', v⟩ := p
      by_cases hk : k' = k
      · subst hk
        simp [bump, keysOf]
      · have hk' : ¬ (k = k') := fun hx => hk hx.symm
        have hbump : bump ((k', v) :: m) k a = (k', v) :: bump m k a := by
          simp [bump, hk]
        have hcons : keysOf ((k', v) :: bump m k a) = k' :: keysOf (bump m k a) := by
          simp [keysOf]
        have hcons2 : keysOf ((k', v) :: m) = k' :: keysOf m := by
          simp [keysOf]
        rw [hbump, hcons, hcons2, ih]
        by_cases hm : k ∈ keysOf m
        · rw [if_pos hm, if_pos (by simp [List.mem_cons, hm])]
        · rw [if_neg hm, if_neg ?_]
          · simp
          · intro hx
            rcases List.mem_cons.mp hx with h1 | h2
            · exact hk' h1
            · exact hm h2

/-- Helper: bumping a key updates its stored value. -/
theorem valGet_bump_self (m : List (String × ℚ)) (k : String) (a : ℚ) :
    valGet (bump m k a) k = some ((valGet m k).getD 0 + a) := by
  induction m with
  | nil => simp [bump, valGet]
  | cons p m ih =>
      obtain ⟨k', v⟩ := p
      by_cases hk : k' = k
      · subst hk
        simp [bump, valGet]
      · simp [bump, valGet, hk, ih]

/-- Helper: bumping a key leaves other keys untouched. -/
theorem valGet_bump_other (m : List (String × ℚ)) (k k'' : String) (a : ℚ)
    (hne : k'' ≠ k) :
    valGet (bump m k a) k'' = valGet m k'' := by
  induction m with
  | nil =>
      have hnk : ¬ (k = k'') := fun h => hne h.symm
      simp [bump, valGet, hnk]
  | cons p m ih =>
      obtain ⟨k', v⟩ := p
      by_cases hk : k' = k
      · subst hk
        have hnk : ¬ (k' = k'') := fun h => hne h.symm
        simp [bump, valGet, hnk]
      · simp [bump, valGet, hk, ih]

/-- Helper: key membership is definedness of `valGet`. -/
theorem mem_keysOf_iff_isSome (m : List (String × ℚ)) (k : String) :
    k ∈ keysOf m ↔ (valGet m k).isSome := by
  induction m with
  | nil => simp [keysOf, valGet]
  | cons p m ih =>
      obtain ⟨k', v⟩ := p
      by_cases hk : k' = k
      · subst hk
        simp [keysOf, valGet]
      · have hk' : ¬ (k = k') := fun hx => hk hx.symm
        have hmem : (k ∈ keysOf ((k', v) :: m)) ↔ (k ∈ keysOf m) := by
          simp [keysOf, List.mem_cons, hk']
        rw [hmem, ih]
        simp [valGet, hk]

/-- Helper: under distinct keys, membership determines `valGet`. -/
theorem valGet_eq_some_of_mem (m : List (String × ℚ))
    (hnd : (keysOf m).Nodup) (k : String) (v : ℚ) (hm : (k, v) ∈ m) :
    valGet m k = some v := by
  induction m with
  | nil => cases hm
  | cons p m ih =>
      obtain ⟨k', v'⟩ := p
      have hh : (k' :: keysOf m).Nodup := by
        simpa only [keysOf, List.map_cons] using hnd
      have hnd1 : (keysOf m).Nodup := (List.nodup_cons.mp hh).2
      have hnd2 : k' ∉ keysOf m := (List.nodup_cons.mp hh).1
      rcases List.mem_cons.mp hm with he | hm'
      · cases he
        simp [valGet]
      · have hk : k' ≠ k := by
          intro hkk
          subst hkk
          exact hnd2 (List.mem_map_of_mem Prod.fst hm')
        simp [valGet, hk]
        exact ih hnd1 hm'

/-- Helper: a defined `valGet` comes from a member entry. -/
theorem mem_of_valGet_eq_some (m : List (String × ℚ)) (k : String) (v : ℚ)
    (h : valGet m k = some v) : (k, v) ∈ m := by
  induction m with
  | nil => simp [valGet] at h
  | cons p m ih =>
      obtain ⟨k', v'⟩ := p
      by_cases hk : k' = k
      · subst hk
        simp [valGet] at h
        simp [h]
      · simp [valGet, hk] at h
        exact List.mem_cons_of_mem _ (ih h)

/-- Helper: the totals fold over a snoc is one `bump`. -/
theorem categoryTotals_snoc (es : List Expense) (e : Expense) :
    categoryTotals (es ++ [e]) = bump (categoryTotals es) e.category e.amount := by
  simp [categoryTotals, List.foldl_append]

/-- Helper: the per-category total over a snoc. -/
theorem catTotal_snoc (es : List Expense) (e : Expense) (c : String) :
    catTotal (es ++ [e]) c =
      catTotal es c + if e.category = c then e.amount else 0 := by
  by_cases h : e.category = c <;> simp [catTotal, List.filter_append, h]

/-- Helper: a category that never occurs has total zero. -/
theorem catTotal_eq_zero (es : List Expense) (c : String)
    (h : ¬ occursCat es c) : catTotal es c = 0 := by
  have hf : es.filter (fun e => decide (e.category = c)) = [] := by
    rw [List.filter_eq_nil_iff]
    intro e he
    simp only [decide_eq_true_eq]
    exact fun hcat => h ⟨e, he, hcat⟩
  simp [catTotal, hf]

/-- Helper: occurrence over a snoc. -/
theorem occursCat_snoc (es : List Expense) (e : Expense) (c : String) :
    occursCat (es ++ [e]) c ↔ occursCat es c ∨ e.category = c := by
  constructor
  · rintro ⟨x, hx, hcat⟩
    rcases List.mem_append.mp hx with h1 | h2
    · exact Or.inl ⟨x, h1, hcat⟩
    · rcases List.mem_cons.mp h2 with rfl | hfalse
      · exact Or.inr hcat
      · cases hfalse
  · rintro (⟨x, hx, hcat⟩ | hcat)
    · exact ⟨x, List.mem_append_left _ hx, hcat⟩
    · exact ⟨e, List.mem_append_right _ (List.mem_cons_self _ _), hcat⟩

/-- Helper: findIdx ignores the right part when the left part matches. -/
theorem findIdx_append_left {α : Type} (p : α → Bool) (l1 l2 : List α)
    (h : ∃ x ∈ l1, p x = true) :
    (l1 ++ l2).findIdx p = l1.findIdx p := by
  induction l1 with
  | nil => simp at h
  | cons a l ih =>
      cases hp : p a with
      | true => simp [List.findIdx_cons, hp]
      | false =>
          have h' : ∃ x ∈ l, p x = true := by
            rcases h with ⟨x, hx, hpx⟩
            rcases List.mem_cons.mp hx with rfl | hx'
            · rw [hp] at hpx; cases hpx
            · exact ⟨x, hx', hpx⟩
          simp [List.findIdx_cons, hp, ih h']

/-- Helper: findIdx skips an unmatching left part. -/
theorem findIdx_append_right {α : Type} (p : α → Bool) (l1 l2 : List α)
    (h : ∀ x ∈ l1, p x = false) :
    (l1 ++ l2).findIdx p = l1.length + l2.findIdx p := by
  induction l1 with
  | nil => simp
  | cons a l ih =>
      have hp : p a = false := h a (by simp)
      have ihr := ih (fun x hx => h x (by simp [hx]))
      simp [List.findIdx_cons, hp, ihr]
      omega

/-- Helper: the first index of an occurring category survives a snoc. -/
theorem firstCatIdx_snoc_occurs (es : List Expense) (e : Expense) (c : String)
    (h : occursCat es c) : firstCatIdx (es ++ [e]) c = firstCatIdx es c := by
  unfold firstCatIdx
  apply findIdx_append_left
  obtain ⟨x, hx, hc'⟩ := h
  exact ⟨x, hx, by simpa using hc'⟩

/-- Helper: the first index of a fresh category is the old length. -/
theorem firstCatIdx_snoc_new (es : List Expense) (e : Expense)
    (h : ¬ occursCat es e.category) :
    firstCatIdx (es ++ [e]) e.category = es.length := by
  unfold firstCatIdx
  rw [findIdx_append_right]
  · simp [List.findIdx_cons]
  · intro x hx
    simp only [decide_eq_false_iff_not]
    exact fun hcat => h ⟨x, hx, hcat⟩

/-- Helper: an occurring category has its first index inside the list. -/
theorem firstCatIdx_lt_length (es : List Expense) (c : String)
    (h : occursCat es c) : firstCatIdx es c < es.length := by
  unfold firstCatIdx
  apply List.findIdx_lt_length_of_exists
  obtain ⟨x, hx, hc'⟩ := h
  exact ⟨x, hx, by simpa using hc'⟩

/-- Helper: the invariant of `categoryTotals` — each key stores the category
total, and the keys are ordered by the index of the category's first
expense. -/
theorem categoryTotals_spec (es : List Expense) :
    (∀ k, valGet (categoryTotals es) k =
        if occursCat es k then some (catTotal es k) else none) ∧
    (keysOf (categoryTotals es)).Pairwise
      (fun k1 k2 => firstCatIdx es k1 < firstCatIdx es k2) := by
  induction es using List.reverseRecOn with
  | nil =>
      constructor
      · intro k
        simp [categoryTotals, valGet, occursCat]
      · simp [categoryTotals, keysOf]
  | append_singleton es e ih =>
      obtain ⟨ihv, ihp⟩ := ih
      have hkey : ∀ k, k ∈ keysOf (categoryTotals es) ↔ occursCat es k := by
        intro k
        rw [mem_keysOf_iff_isSome, ihv k]
        by_cases hk : occursCat es k <;> simp [hk]
      rw [categoryTotals_snoc]
      constructor
      · intro k
        by_cases hk : e.category = k
        · subst hk
          rw [valGet_bump_self, ihv e.category]
          have hocc : occursCat (es ++ [e]) e.category :=
            (occursCat_snoc es e e.category).mpr (Or.inr rfl)
          rw [if_pos hocc, catTotal_snoc, if_pos rfl]
          by_cases ho : occursCat es e.category
          · simp [ho]
          · simp [ho, catTotal_eq_zero es e.category ho]
        · have hk' : k ≠ e.category := fun hh => hk hh.symm
          rw [valGet_bump_other _ _ _ _ hk', ihv k]
          have hocc : occursCat (es ++ [e]) k ↔ occursCat es k := by
            rw [occursCat_snoc]
            simp [hk]
          have htot : catTotal (es ++ [e]) k = catTotal es k := by
            rw [catTotal_snoc, if_neg hk, add_zero]
          by_cases ho : occursCat es k
          · rw [if_pos ho, if_pos (hocc.mpr ho), htot]
          · rw [if_neg ho, if_neg (fun hx => ho (hocc.mp hx))]
      · rw [keysOf_bump]
        by_cases hmem : e.category ∈ keysOf (categoryTotals es)
        · rw [if_pos hmem]
          refine ihp.imp_of_mem (fun {a b} ha hb hrel => ?_)
          rw [firstCatIdx_snoc_occurs es e a ((hkey a).mp ha),
              firstCatIdx_snoc_occurs es e b ((hkey b).mp hb)]
          exact hrel
        · rw [if_neg hmem]
          rw [List.pairwise_append]
          refine ⟨?_, List.pairwise_singleton _ _, ?_⟩
          · refine ihp.imp_of_mem (fun {a b} ha hb hrel => ?_)
            rw [firstCatIdx_snoc_occurs es e a ((hkey a).mp ha),
                firstCatIdx_snoc_occurs es e b ((hkey b).mp hb)]
            exact hrel
          · intro a ha b hb
            rcases List.mem_singleton.mp hb with rfl
            have hocc : occursCat es a := (hkey a).mp ha
            have hnew : ¬ occursCat es e.category := fun hx => hmem ((hkey e.category).mpr hx)
            rw [firstCatIdx_snoc_occurs es e a hocc, firstCatIdx_snoc_new es e hnew]
            exact firstCatIdx_lt_length es a hocc

/-- Helper: nonempty expenses give nonempty totals. -/
theorem categoryTotals_ne_nil (es : List Expense) (h : es ≠ []) :
    categoryTotals es ≠ [] := by
  obtain ⟨e, es', rfl⟩ := List.exists_cons_of_ne_nil h
  intro hcon
  have hocc : occursCat (e :: es') e.category := ⟨e, by simp, rfl⟩
  have hv := (categoryTotals_spec (e :: es')).1 e.category
  rw [hcon, if_pos hocc] at hv
  simp [valGet] at hv

/-- Helper: a first maximum bounds every entry. -/
theorem isFirstMax_le (l : List (String × ℚ)) (p : String × ℚ)
    (h : IsFirstMax l p) : ∀ q ∈ l, q.2 ≤ p.2 := by
  obtain ⟨l1, l2, rfl, hlt, hle⟩ := h
  intro q hq
  rcases List.mem_append.mp hq with h1 | h2
  · exact le_of_lt (hlt q h1)
  · rcases List.mem_cons.mp h2 with rfl | h2'
    · exact le_refl _
    · exact hle q h2'

/-- Helper: the head of the stable descending sort is the first entry
attaining the maximal total. -/
theorem head_insertionSort_isFirstMax (l : List (String × ℚ)) :
    ∀ p, (List.insertionSort byTotalDesc l).head? = some p → IsFirstMax l p := by
  induction l with
  | nil =>
      intro p h
      simp [List.insertionSort] at h
  | cons x l ih =>
      intro p hp
      simp only [List.insertionSort] at hp
      cases hs : List.insertionSort byTotalDesc l with
      | nil =>
          rw [hs] at hp
          simp only [List.orderedInsert, List.head?] at hp
          cases Option.some.inj hp
          have hl : l = [] := by
            have hperm := List.perm_insertionSort byTotalDesc l
            rw [hs] at hperm
            exact hperm.symm.eq_nil
          subst hl
          exact ⟨[], [], rfl, by simp, by simp⟩
      | cons h' t =>
          rw [hs] at hp
          simp only [List.orderedInsert] at hp
          by_cases hcmp : byTotalDesc x h'
          · rw [if_pos hcmp] at hp
            have hxp : x = p := by simpa using hp
            subst hxp
            refine ⟨[], l, rfl, by simp, ?_⟩
            intro q hq
            have hfm := ih h' (by simp [hs])
            have hxb : h'.2 ≤ x.2 := hcmp
            exact le_trans (isFirstMax_le l h' hfm q hq) hxb
          · rw [if_neg hcmp] at hp
            have hhp : h' = p := by simpa using hp
            subst hhp
            have hfm := ih h' (by simp [hs])
            obtain ⟨l1, l2, heq, hlt, hle⟩ := hfm
            refine ⟨x :: l1, l2, by rw [heq]; rfl, ?_, hle⟩
            intro q hq
            rcases List.mem_cons.mp hq with rfl | hq'
            · exact lt_of_not_le hcmp
            · exact hlt q hq'

/-- Helper: `Object.entries` returns a permutation of the record. -/
theorem jsEntries_perm (m : List (String × ℚ)) : (jsEntries m).Perm m := by
  unfold jsEntries
  refine List.Perm.trans (List.Perm.append_right _ ?_) (List.filter_append_perm _ m)
  exact List.perm_insertionSort byIndexAsc _

/-- Helper: with no array-index key, `Object.entries` is exactly the
creation order. -/
theorem jsEntries_of_no_index (m : List (String × ℚ))
    (h : ∀ p ∈ m, isArrayIndexName p.1 = false) : jsEntries m = m := by
  unfold jsEntries
  have h1 : m.filter (fun p => isArrayIndexName p.1) = [] := by
    rw [List.filter_eq_nil_iff]
    intro p hp
    simp [h p hp]
  have h2 : m.filter (fun p => !isArrayIndexName p.1) = m := by
    rw [List.filter_eq_self]
    intro p hp
    simp [h p hp]
  rw [h1, h2]
  simp

/-- C9 witness: the filter specification instantiated on a fresh state, an
always-true hypothesis pair, and one added expense. -/
theorem get_expenses_witness :
    (("Food" : String) ≠ "" ∧ ∀ e ∈ (initialState ("u")).expenses, e.category ≠ "Food") ∧
    (getExpenses (addExpense (initialState ("u"))
        ⟨7, "Cafe", "Food", "2024-01-01", none⟩ 5 ("r")).2 noFilters).getLast? =
      some (addExpense (initialState ("u"))
        ⟨7, "Cafe", "Food", "2024-01-01", none⟩ 5 ("r")).1 :=
  ⟨⟨by decide, by simp [initialState]⟩,
    (get_expenses_spec (initialState ("u")) noFilters
      ⟨7, "Cafe", "Food", "2024-01-01", none⟩ 5 ("r") "Food" (by decide)
      (by simp [initialState])).2.2.2⟩
